import Mathlib

/-!
Shallow embedding of the bulk file-transfer engine of the algorithmia CLI
(src/data/cp.rs), together with theorems checking the design document's
claims about it.  Pure computations (destination classification, write-target
resolution, per-item outcomes) are embedded as Lean functions; the
concurrent parts (the bounded work channel, the mutex-guarded completion
counter) are embedded as explicit small-step relations on state types.
-/

namespace AlgoCp

/-! ## String machinery

Models of the string operations the Rust code relies on:
str::splitn(2, pat) and extracting the base filename of a path. -/

/-- Boolean test that the second character list starts with the first one. -/
def leadsWith : List Char → List Char → Bool
  | [], _ => true
  | _ :: _, [] => false
  | p :: ps, c :: cs => p == c && leadsWith ps cs

/-- Split a character list at the first occurrence of a nonempty pattern,
returning the part before and the part after, or none when the pattern does
not occur.  This models Rust str::splitn(2, pat) producing two pieces. -/
def splitOnce (pat : List Char) : List Char → Option (List Char × List Char)
  | [] => none
  | c :: rest =>
    if leadsWith pat (c :: rest) then some ([], (c :: rest).drop pat.length)
    else
      match splitOnce pat rest with
      | some (a, b) => some (c :: a, b)
      | none => none

/-- The scheme separator used by Cp::cmd_main. -/
def sepArrow : List Char := (String.toList "://")

/-- The last slash-separated segment of a path, modelling how a base
filename is extracted from a path string (Path::file_name in put_file, and
DataFile::basename for remote paths). -/
def lastSegment : List Char → List Char
  | [] => []
  | c :: rest =>
    if rest.contains '/' then lastSegment rest
    else if c == '/' then rest else c :: rest

/-- Base filename of a path string. -/
def basename (s : String) : String := String.mk (lastSegment s.data)

/-! ## Direction classification (Cp::cmd_main, cp.rs lines 55-63)

The destination is split on the first occurrence of the scheme separator;
a destination with fewer than two parts, or whose first part is
the string file, is treated as local (download); otherwise remote (upload). -/

/-- Model of the split dest.splitn(2, scheme separator).collect() in
Cp::cmd_main (cp.rs line 57). -/
def dest_parts (dest : String) : List String :=
  match splitOnce sepArrow dest.data with
  | none => [dest]
  | some (a, b) => [String.mk a, String.mk b]

/-- Transfer direction of a batch. -/
inductive Direction
  | download
  | upload
deriving DecidableEq, Repr

/-- Model of the direction dispatch in Cp::cmd_main (cp.rs lines 58-62):
download when the split yields fewer than two parts or the first part is
the string file, upload otherwise.  Computed once per batch, before either
CpClient::download or CpClient::upload spawns any thread. -/
def cmd_direction (dest : String) : Direction :=
  if (dest_parts dest).length < 2 ∨ (dest_parts dest).headD "" = "file"
  then Direction.download else Direction.upload

/-- Spec-side classification of the destination, phrased exactly as the
design document words it: LocalPath when the destination has no
scheme-separator occurrence at all, or when the part before the first
occurrence of the separator is the string file. -/
def SpecLocalDest (dest : String) : Prop :=
  (∀ a b : List Char, dest.data ≠ a ++ sepArrow ++ b) ∨
  (∃ a b : List Char, dest.data = a ++ sepArrow ++ b ∧ String.mk a = "file" ∧
    ∀ x y : List Char, dest.data = x ++ sepArrow ++ y → a.length ≤ x.length)

/-! Lemmas connecting splitOnce to the existence of a pattern occurrence. -/

theorem leadsWith_iff (p l : List Char) :
    leadsWith p l = true ↔ ∃ t, l = p ++ t := by
  induction p generalizing l with
  | nil => simp [leadsWith]
  | cons c cs ih =>
    cases l with
    | nil => simp [leadsWith]
    | cons d ds =>
      simp only [leadsWith, Bool.and_eq_true, beq_iff_eq, ih]
      constructor
      · rintro ⟨rfl, t, rfl⟩
        exact ⟨t, rfl⟩
      · rintro ⟨t, h⟩
        simp only [List.cons_append, List.cons.injEq] at h
        exact ⟨h.1.symm, t, h.2⟩

theorem splitOnce_none (pat l : List Char) (hp : pat ≠ [])
    (h : splitOnce pat l = none) : ∀ a b, l ≠ a ++ pat ++ b := by
  induction l with
  | nil =>
    intro a b hab
    cases a with
    | nil => cases pat with
      | nil => exact hp rfl
      | cons c cs => simp at hab
    | cons c cs => simp at hab
  | cons c rest ih =>
    intro a b hab
    rw [splitOnce] at h
    by_cases hl : leadsWith pat (c :: rest) = true
    · rw [if_pos hl] at h
      exact Option.noConfusion h
    · rw [if_neg hl] at h
      cases a with
      | nil =>
        refine hl ((leadsWith_iff pat (c :: rest)).2 ⟨b, ?_⟩)
        simpa using hab
      | cons a0 as =>
        simp only [List.cons_append, List.cons.injEq] at hab
        rcases hab with ⟨rfl, hrest⟩
        cases hso : splitOnce pat rest with
        | none => exact ih hso as b hrest
        | some p => rw [hso] at h; exact Option.noConfusion h

theorem splitOnce_some (pat l a0 b0 : List Char)
    (h : splitOnce pat l = some (a0, b0)) :
    l = a0 ++ pat ++ b0 ∧ ∀ a b, l = a ++ pat ++ b → a0.length ≤ a.length := by
  induction l generalizing a0 b0 with
  | nil => rw [splitOnce] at h; exact Option.noConfusion h
  | cons c rest ih =>
    rw [splitOnce] at h
    by_cases hl : leadsWith pat (c :: rest) = true
    · rw [if_pos hl] at h
      rcases (leadsWith_iff pat (c :: rest)).1 hl with ⟨t, ht⟩
      have hdrop : (c :: rest).drop pat.length = t := by
        rw [ht, List.drop_left]
      rw [hdrop] at h
      injection h with h2
      injection h2 with ha hb
      subst ha; subst hb
      constructor
      · simpa using ht
      · intro a b _; exact Nat.zero_le _
    · rw [if_neg hl] at h
      cases hso : splitOnce pat rest with
      | none => rw [hso] at h; exact Option.noConfusion h
      | some p =>
        rw [hso] at h
        injection h with h2
        rcases p with ⟨pa, pb⟩
        injection h2 with ha hb
        rcases ih pa pb hso with ⟨heq, hmin⟩
        subst ha; subst hb
        constructor
        · simp [heq]
        · intro a b hab
          cases a with
          | nil =>
            exfalso
            refine hl ((leadsWith_iff pat (c :: rest)).2 ⟨b, ?_⟩)
            simpa using hab
          | cons x xs =>
            simp only [List.cons_append, List.cons.injEq] at hab
            have := hmin xs b hab.2
            simpa [List.length_cons] using Nat.succ_le_succ this

/-- C2: for every batch, the transfer direction is download (destination
classified LocalPath) exactly when the destination string has no scheme
separator occurrence, or the part before its first occurrence is the string
file; upload (RemotePath) for any other prefix.  The classification is the
one-shot computation cmd_direction performed by Cp::cmd_main before either
transfer routine spawns a thread. -/
theorem c2_direction_classification (dest : String) :
    cmd_direction dest = Direction.download ↔ SpecLocalDest dest := by
  unfold cmd_direction dest_parts
  cases hso : splitOnce sepArrow dest.data with
  | none =>
    have hnone := splitOnce_none sepArrow dest.data (by decide) hso
    rw [if_pos (Or.inl (by norm_num))]
    exact iff_of_true rfl (Or.inl hnone)
  | some p =>
    rcases p with ⟨a, b⟩
    obtain ⟨heq, hmin⟩ := splitOnce_some sepArrow dest.data a b hso
    by_cases hf : String.mk a = "file"
    · rw [if_pos (Or.inr (by simpa using hf))]
      exact iff_of_true rfl (Or.inr ⟨a, b, heq, hf, hmin⟩)
    · rw [if_neg ?hc]
      case hc =>
        rintro (h2 | hh)
        · simp at h2
        · exact hf (by simpa using hh)
      constructor
      · intro h; exact Direction.noConfusion h
      · rintro (hno | ⟨x, y, hxy, hxfile, hxmin⟩)
        · exact absurd heq (hno a b)
        · exfalso
          have hlen : a.length = x.length :=
            Nat.le_antisymm (hmin x y hxy) (hxmin a b heq)
          have hassoc : a ++ (sepArrow ++ b) = x ++ (sepArrow ++ y) := by
            rw [← List.append_assoc, ← List.append_assoc, ← heq, ← hxy]
          have hax := (List.append_inj hassoc hlen).1
          exact hf (hax ▸ hxfile)

/-! ## Upload destination resolution (CpClient::upload, cp.rs lines 126-157)

Per dequeued path, the worker queries the destination (dest_obj.into_type())
and branches on whether it is an existing remote file, an existing remote
directory, or nonexistent.  The remote store and local filesystem are
oracles here: their answers for one item are packaged in UploadEnv. -/

/-- Kind the batch destination resolves to for one item, the three arms of
the match on dest_obj.into_type() (cp.rs lines 129-144). -/
inductive RemoteKind
  | file
  | dir
  | nonexistent
deriving DecidableEq, Repr

/-- The design document's name for the write mode each arm realizes. -/
inductive WriteMode
  | overwrite
  | insertChild
  | createNew
deriving DecidableEq, Repr

/-- Which write mode each resolved destination kind selects (cp.rs lines
130-144: existing file is overwritten, an existing directory receives the
file as a child, and otherwise a new file is created at the destination). -/
def uploadWriteMode : RemoteKind → WriteMode
  | RemoteKind.file => WriteMode.overwrite
  | RemoteKind.dir => WriteMode.insertChild
  | RemoteKind.nonexistent => WriteMode.createNew

/-- Model of the client library call DataDir::put_file (cp.rs line 137):
the local file at localPath is uploaded into the directory under its base
filename, so the written remote address is the directory joined with
basename localPath. -/
def put_file_target (dirUri localPath : String) : String :=
  dirUri ++ "/" ++ basename localPath

/-- Model of the client library call child on a data directory (cp.rs line
138): it joins the given name onto the directory path with a slash.  Note
the code passes the whole local path rx_path to it, not the basename. -/
def child_uri (dirUri name : String) : String :=
  dirUri ++ "/" ++ name

/-- Oracle answers of the remote store and local filesystem for one upload
item: the kind the destination resolves to, whether File::open on the local
source succeeds, and the result of the put call (for the directory arm a
failure to open the source also surfaces here, because put_file returns a
Result instead of unwrapping). -/
structure UploadEnv where
  destKind : RemoteKind
  openOk : Bool
  putRes : Except String Unit
deriving Repr

/-- Outcome of one worker loop iteration for one dequeued path: a success
with the URI the worker prints, the fatal quit_err path carrying the full
printed message, or a panic from unwrapping a failed File::open. -/
inductive ItemOutcome
  | success (printedUri : String)
  | fatalExit (message : String)
  | panicked
deriving DecidableEq, Repr

/-- One iteration of the upload worker loop (cp.rs lines 127-154) for one
dequeued path rx_path.  The file arm and the nonexistent arm call
File::open(&rx_path).unwrap(), so a failed open panics there; the directory
arm delegates the open to put_file.  On success the printed URI is the
destination itself (file arm and nonexistent arm, via to_data_uri of the
destination) or the directory child named by the whole rx_path string
(directory arm, via child(&rx_path)); on a put error the worker runs
quit_err with the message shown. -/
def upload_item (dest : String) (env : UploadEnv) (rx_path : String) :
    ItemOutcome :=
  match env.destKind with
  | RemoteKind.file =>
    if env.openOk then
      match env.putRes with
      | Except.ok _ => ItemOutcome.success dest
      | Except.error e =>
        ItemOutcome.fatalExit ("Error uploading " ++ rx_path ++ ": " ++ e)
    else ItemOutcome.panicked
  | RemoteKind.dir =>
    match env.putRes with
    | Except.ok _ => ItemOutcome.success (child_uri dest rx_path)
    | Except.error e =>
      ItemOutcome.fatalExit ("Error uploading " ++ rx_path ++ ": " ++ e)
  | RemoteKind.nonexistent =>
    if env.openOk then
      match env.putRes with
      | Except.ok _ => ItemOutcome.success dest
      | Except.error e =>
        ItemOutcome.fatalExit ("Error uploading " ++ rx_path ++ ": " ++ e)
    else ItemOutcome.panicked

/-- The remote address the bytes are actually written to for one upload
(cp.rs lines 129-144): the destination itself when it is an existing file
(f.put overwrites it) or nonexistent (client.file(dest).put creates it),
and the directory child named by the base filename of the local path when
the destination is an existing directory (put_file uploads under the base
filename). -/
def upload_write_target (destKind : RemoteKind) (dest rx_path : String) :
    String :=
  match destKind with
  | RemoteKind.file => dest
  | RemoteKind.dir => put_file_target dest rx_path
  | RemoteKind.nonexistent => dest

/-- C1: refuted as stated.  Uploading the local file at path sub/a.txt into
the existing remote directory data://x writes the remote object
data://x/a.txt (put_file uses the base filename), but the success line
prints data://x/sub/a.txt, because line 138 passes the whole rx_path to
child instead of its basename.  So the printed URI is not
destination/basename(item) whenever the source path has a directory
component, diverging from the write target. -/
theorem c1_print_target_divergence :
    upload_item "data://x" ⟨RemoteKind.dir, true, Except.ok ()⟩ "sub/a.txt"
      = ItemOutcome.success "data://x/sub/a.txt"
    ∧ upload_write_target RemoteKind.dir "data://x" "sub/a.txt"
      = "data://x/a.txt"
    ∧ ("data://x/sub/a.txt" : String) ≠ "data://x/a.txt" := by
  refine ⟨rfl, ?_, by decide⟩
  decide

/-- C3: for every upload item whose destination resolves to nothing
existing, the selected mode is the create-new arm, and both the written
address and the printed URI equal the literal destination string,
independent of the item path (the third conjunct exhibits the successful
run of that arm). -/
theorem c3_create_new_literal_dest (dest rx_path : String) :
    uploadWriteMode RemoteKind.nonexistent = WriteMode.createNew
    ∧ upload_write_target RemoteKind.nonexistent dest rx_path = dest
    ∧ upload_item dest ⟨RemoteKind.nonexistent, true, Except.ok ()⟩ rx_path
        = ItemOutcome.success dest := by
  exact ⟨rfl, rfl, rfl⟩

/-- C10: when the local source file cannot be opened, the upload worker
panics on the unwrap of File::open in both the overwrite-existing-file arm
and the create-new arm (here at the concrete missing path missing.txt), and
a panic is a distinct termination from every quit_err fatal exit, so the
process aborts without the documented error message naming the item. -/
theorem c10_open_unwrap_panic :
    upload_item "data://x/new.bin"
        ⟨RemoteKind.file, false, Except.ok ()⟩ "missing.txt"
      = ItemOutcome.panicked
    ∧ upload_item "data://x/new.bin"
        ⟨RemoteKind.nonexistent, false, Except.ok ()⟩ "missing.txt"
      = ItemOutcome.panicked
    ∧ ∀ m : String, ItemOutcome.panicked ≠ ItemOutcome.fatalExit m := by
  refine ⟨rfl, rfl, ?_⟩
  intro m h
  exact ItemOutcome.noConfusion h

/-! ## Download destination resolution (download_file, cp.rs lines 215-242) -/

/-- Result of fs::metadata on the local destination: found with a
directory flag, or an error (in particular the path does not exist). -/
inductive MetaResult
  | found (isDir : Bool)
  | absent
deriving DecidableEq, Repr

/-- Model of std Path::join of a base path and a file name (cp.rs line
220): an absolute name replaces the base, otherwise the name is appended,
inserting a separator unless the base is empty or already ends with one. -/
def path_join (base name : String) : String :=
  if name.data.head? = some '/' then name
  else if base = "" then name
  else if base.data.getLast? = some '/' then base ++ name
  else base ++ "/" ++ name

/-- The local path download_file hands to File::create (cp.rs lines
218-223): when fs::metadata finds the destination and it is a directory,
the directory joined with the remote item's base filename; in every other
case (existing non-directory, or metadata error) the destination string
taken literally. -/
def download_full_path (meta : MetaResult) (local_path remote_path : String) :
    String :=
  match meta with
  | MetaResult.found true => path_join local_path (basename remote_path)
  | MetaResult.found false => local_path
  | MetaResult.absent => local_path

theorem lastSegment_no_slash (l : List Char) :
    (lastSegment l).contains '/' = false := by
  induction l with
  | nil => rfl
  | cons c rest ih =>
    rw [lastSegment]
    by_cases h : rest.contains '/' = true
    · rw [if_pos h]; exact ih
    · rw [if_neg h]
      have h0 : rest.contains '/' = false := by
        cases hb : rest.contains '/' with
        | false => rfl
        | true => exact absurd hb h
      by_cases hc : (c == '/') = true
      · rw [if_pos hc]; exact h0
      · rw [if_neg hc]
        have hc0 : (c == '/') = false := by
          cases hb : (c == '/') with
          | false => rfl
          | true => exact absurd hb hc
        have hsym : ('/' == c) = false := by
          cases hq : ('/' == c) with
          | false => rfl
          | true =>
            have he : '/' = c := eq_of_beq hq
            rw [← he] at hc0
            simp at hc0
        rw [List.contains_cons, hsym, h0]
        rfl

theorem basename_head_ne_slash (s : String) :
    (basename s).data.head? ≠ some '/' := by
  intro h
  have hc := lastSegment_no_slash s.data
  cases hl : lastSegment s.data with
  | nil => rw [basename] at h; rw [hl] at h; exact Option.noConfusion h
  | cons c cs =>
    rw [basename] at h
    rw [hl] at h
    simp only [List.head?] at h
    injection h with h
    rw [hl] at hc
    simp [List.contains_cons, h] at hc

/-- C4: for every download item, the path handed to File::create is
destination joined with basename(item) when the destination is found and is
a directory, and exactly the destination string in every other case,
including an existing non-directory and a nonexistent destination; for a
nonempty destination without a trailing separator the join is literally
destination, separator, basename(item). -/
theorem c4_download_target (meta : MetaResult) (dest item : String) :
    (meta = MetaResult.found true →
      download_full_path meta dest item = path_join dest (basename item))
    ∧ (meta ≠ MetaResult.found true →
      download_full_path meta dest item = dest)
    ∧ (dest ≠ "" → dest.data.getLast? ≠ some '/' →
      path_join dest (basename item) = dest ++ "/" ++ basename item) := by
  refine ⟨?_, ?_, ?_⟩
  · intro h; subst h; rfl
  · intro h
    cases meta with
    | found b =>
      cases b with
      | true => exact absurd rfl h
      | false => rfl
    | absent => rfl
  · intro hne hlast
    rw [path_join, if_neg (basename_head_ne_slash item), if_neg hne,
      if_neg hlast]

/-- Witness for c4_download_target at concrete inputs: downloading
data://x/a.txt with an existing directory destination out resolves to
out/a.txt, and with a nonexistent destination out2 resolves to out2. -/
theorem c4_download_target_witness :
    download_full_path (MetaResult.found true) "out" "data://x/a.txt"
      = "out/a.txt"
    ∧ download_full_path MetaResult.absent "out2" "data://x/a.txt"
      = "out2" := by
  have h1 := c4_download_target (MetaResult.found true) "out" "data://x/a.txt"
  have h2 := c4_download_target MetaResult.absent "out2" "data://x/a.txt"
  refine ⟨?_, h2.2.1 (by decide)⟩
  rw [h1.1 rfl, h1.2.2 (by decide) (by decide)]
  decide

/-! ## Per-item download outcome and the worker loop (cp.rs 164-212) -/

/-- Oracle answers of the backend and filesystem for one download item. -/
structure DownloadEnv where
  getOk : Bool
  getErr : String
  meta : MetaResult
  createOk : Bool
  createErr : String
  copyRes : Except String Nat
deriving Repr

/-- What one call to download_file did: its Result value, and the local
path handed to File::create when the remote get succeeded. -/
structure DownloadFileRun where
  res : Except String Nat
  createTarget : Option String
deriving Repr

/-- Model of download_file (cp.rs lines 215-242): the remote get, then
File::create on the resolved full path (recorded in createTarget), then
io::copy, each failure point producing the error message shown; on success
the copied byte count. -/
def download_file (env : DownloadEnv) (data_file_uri local_path : String) :
    DownloadFileRun :=
  if env.getOk then
    { res :=
        if env.createOk then
          match env.copyRes with
          | Except.ok b => Except.ok b
          | Except.error e => Except.error ("Error copying data: " ++ e)
        else Except.error ("Error creating file: " ++ env.createErr)
      createTarget := some (download_full_path env.meta local_path data_file_uri) }
  else
    { res := Except.error
        ("Error downloading (" ++ data_file_uri ++ "): " ++ env.getErr)
      createTarget := none }

/-- One iteration of the download worker loop (cp.rs lines 192-201): on Ok
the worker prints the item identifier with the byte count and increments
the counter, on Err it runs quit_msg with the message shown.  quit_msg is
modelled from the spec (the macro is defined outside these sources): print
the message and exit the process with a non-zero status. -/
def download_item (env : DownloadEnv) (dest rx_path : String) : ItemOutcome :=
  match (download_file env rx_path dest).res with
  | Except.ok _ => ItemOutcome.success rx_path
  | Except.error m =>
    ItemOutcome.fatalExit ("Failed to download " ++ rx_path ++ ": " ++ m)

/-- How one worker terminates: a clean loop exit after the channel is
drained (wg.done()), a process exit with a code via the quit macros
(modelled from the spec: print the message, exit non-zero), or a panic. -/
inductive WorkerExit
  | joined
  | exited (message : String) (code : Nat)
  | crashed
deriving DecidableEq, Repr

/-- What one worker did: the success payloads it printed in order, how many
items succeeded, and how it terminated. -/
structure WorkerRun where
  printed : List String
  succeeded : Nat
  exit : WorkerExit
deriving DecidableEq, Repr

/-- The worker loop body shared by CpClient::upload (cp.rs lines 126-157)
and CpClient::download (lines 191-204), abstracted over the per-item step:
process the dequeued paths in order; a success prints one line and counts;
the first fatal outcome stops everything with a non-zero exit; a panic
stops everything with a crash. -/
def run_worker (step : String → ItemOutcome) : List String → WorkerRun
  | [] => ⟨[], 0, WorkerExit.joined⟩
  | p :: rest =>
    match step p with
    | ItemOutcome.success u =>
      let r := run_worker step rest
      ⟨u :: r.printed, r.succeeded + 1, r.exit⟩
    | ItemOutcome.fatalExit m => ⟨[], 0, WorkerExit.exited m 1⟩
    | ItemOutcome.panicked => ⟨[], 0, WorkerExit.crashed⟩

/-- C6: the first transfer failure a worker encounters is fatal: the run
exits with code 1 carrying the failure message, only the items before the
failing one count as succeeded, the items after the failing one are never
processed (the run equals the run with the tail dropped), and every fatal
message produced by an upload or download step names the failing item
together with the underlying error. -/
theorem c6_first_failure_fatal (step : String → ItemOutcome)
    (pre post : List String) (x m : String)
    (hpre : ∀ p ∈ pre, ∃ u, step p = ItemOutcome.success u)
    (hx : step x = ItemOutcome.fatalExit m) :
    (run_worker step (pre ++ x :: post)).exit = WorkerExit.exited m 1
    ∧ (run_worker step (pre ++ x :: post)).succeeded = pre.length
    ∧ run_worker step (pre ++ x :: post) = run_worker step (pre ++ [x])
    ∧ (∀ d env p mm, upload_item d env p = ItemOutcome.fatalExit mm →
        ∃ e, mm = "Error uploading " ++ p ++ ": " ++ e)
    ∧ (∀ env d p mm, download_item env d p = ItemOutcome.fatalExit mm →
        ∃ e, mm = "Failed to download " ++ p ++ ": " ++ e) := by
  refine ⟨?_, ?_, ?_, ?_, ?_⟩
  · induction pre with
    | nil => simp [run_worker, hx]
    | cons p ps ih =>
      obtain ⟨u, hu⟩ := hpre p (List.mem_cons_self p ps)
      have ih2 := ih (fun q hq => hpre q (List.mem_cons_of_mem p hq))
      simp [run_worker, hu, ih2]
  · induction pre with
    | nil => simp [run_worker, hx]
    | cons p ps ih =>
      obtain ⟨u, hu⟩ := hpre p (List.mem_cons_self p ps)
      have ih2 := ih (fun q hq => hpre q (List.mem_cons_of_mem p hq))
      simp [run_worker, hu, ih2]
  · induction pre with
    | nil => simp [run_worker, hx]
    | cons p ps ih =>
      obtain ⟨u, hu⟩ := hpre p (List.mem_cons_self p ps)
      have ih2 := ih (fun q hq => hpre q (List.mem_cons_of_mem p hq))
      simp [run_worker, hu, ih2]
  · intro d env p mm h
    rcases env with ⟨k, o, r⟩
    cases k <;> cases o <;> cases r <;>
      simp [upload_item] at h <;> exact ⟨_, h.symm⟩
  · intro env d p mm h
    rcases env with ⟨g, ge, mt, co, ce, cr⟩
    cases g <;> cases co <;> cases cr <;>
      simp [download_item, download_file] at h <;> exact ⟨_, h.symm⟩

/-- A concrete worker step used to witness c6_first_failure_fatal: the item
b fails with the documented message, every other item uploads fine. -/
def stepW : String → ItemOutcome :=
  fun p =>
    if p = "b" then ItemOutcome.fatalExit "Error uploading b: boom"
    else ItemOutcome.success "data://d"

/-- Witness for c6_first_failure_fatal on the batch a, b, c with b failing:
the worker exits with code 1 and the message, exactly one success counted. -/
theorem c6_first_failure_fatal_witness :
    (run_worker stepW ["a", "b", "c"]).exit
      = WorkerExit.exited "Error uploading b: boom" 1
    ∧ (run_worker stepW ["a", "b", "c"]).succeeded = 1 := by
  have h := c6_first_failure_fatal stepW ["a"] ["c"] "b"
    "Error uploading b: boom"
    (by
      intro p hp
      simp only [List.mem_singleton] at hp
      subst hp
      exact ⟨"data://d", by decide⟩)
    (by decide)
  exact ⟨h.1, h.2.1⟩

/-! ## Batch thread and channel structure (cp.rs lines 99-118 and 164-183)

Both CpClient::upload and CpClient::download begin identically: clamp the
worker count to min(sources.len(), max_concurrency), open a bounded channel
of capacity max_concurrency via chan::sync, spawn one producer thread
unconditionally, then spawn one thread per clamped worker count. -/

/-- The quantities fixed at the start of one upload or download batch. -/
structure BatchSetup where
  workers : Nat
  channelCapacity : Nat
  producerSpawned : Bool
deriving DecidableEq, Repr

/-- Model of the batch setup shared by CpClient::upload (cp.rs lines
99-118) and CpClient::download (lines 164-183): the worker count is
min(sources.len(), max_concurrency) (line 102 and 167), the channel
capacity handed to chan::sync is max_concurrency itself (line 104 and
169), and the producer thread is spawned unconditionally (line 109 and
174), before and regardless of the worker loop. -/
def batch_setup (max_concurrency : Nat) (sources : List String) : BatchSetup :=
  ⟨min sources.length max_concurrency, max_concurrency, true⟩

/-! ## The shared completion counter (cp.rs lines 106, 147-161, 171-211)

Each worker, per successfully transferred item, first observes the Success
result (and prints), then takes the mutex and increments the shared
counter.  The two moments are distinct program points, so the model gives
each worker a pending flag set between them.  Worker plans list each item's
transfer result in dequeue order (true for Success); a false item has no
step, since the process exits there. -/

/-- One worker's remaining transfer results and whether it has printed a
success whose counter increment has not happened yet. -/
structure WState where
  todo : List Bool
  pending : Bool
deriving DecidableEq, Repr

/-- The shared state: the per-worker states, how many transfers returned
Success so far, and the mutex-guarded completed counter. -/
structure CounterState where
  workers : List WState
  succ : Nat
  counter : Nat
deriving DecidableEq, Repr

/-- Atomic steps of the completion tracking (cp.rs lines 147-152 and
194-199): a worker consumes a leading Success from its plan (the transfer
returned Success and the progress line is printed), or a worker holding a
pending success takes the mutex and increments the counter. -/
inductive CounterStep : CounterState → CounterState → Prop
  | report (i : Nat) (rest : List Bool) (ws : List WState) (sc cnt : Nat)
      (hw : ws.get? i = some ⟨true :: rest, false⟩) :
      CounterStep ⟨ws, sc, cnt⟩ ⟨ws.set i ⟨rest, true⟩, sc + 1, cnt⟩
  | incr (i : Nat) (todo : List Bool) (ws : List WState) (sc cnt : Nat)
      (hw : ws.get? i = some ⟨todo, true⟩) :
      CounterStep ⟨ws, sc, cnt⟩ ⟨ws.set i ⟨todo, false⟩, sc, cnt + 1⟩

/-- Initial counter state for the given worker plans: nothing pending,
both tallies zero (cp.rs line 106: completed starts at 0). -/
def initCounter (plans : List (List Bool)) : CounterState :=
  ⟨plans.map (fun l => ⟨l, false⟩), 0, 0⟩

/-- Number of workers that have printed a success but not yet incremented
the counter. -/
def pendingCount (ws : List WState) : Nat :=
  ws.countP (fun w => w.pending)

theorem countP_set (p : WState → Bool) (ws : List WState) (i : Nat)
    (w wnew : WState) (h : ws.get? i = some w) :
    (ws.set i wnew).countP p + (if p w then 1 else 0)
      = ws.countP p + (if p wnew then 1 else 0) := by
  induction ws generalizing i with
  | nil => simp at h
  | cons a as ih =>
    cases i with
    | zero =>
      simp only [List.get?] at h
      injection h with h
      subst h
      simp [List.set, List.countP_cons]
      omega
    | succ j =>
      simp only [List.get?] at h
      have := ih j h
      simp [List.set, List.countP_cons]
      omega

/-- The counter invariant: the counter plus the pending increments equals
the number of transfers that returned Success. -/
theorem counter_invariant (plans : List (List Bool)) (s : CounterState)
    (h : Relation.ReflTransGen CounterStep (initCounter plans) s) :
    s.counter + pendingCount s.workers = s.succ := by
  induction h with
  | refl => simp [initCounter, pendingCount, List.countP_map]
  | @tail b c hreach hstep ih =>
    cases hstep with
    | report i rest ws sc cnt hw =>
      have hc := countP_set (fun w => w.pending) ws i ⟨true :: rest, false⟩
        ⟨rest, true⟩ hw
      simp only [pendingCount] at ih ⊢
      simp at hc ⊢
      omega
    | incr i todo ws sc cnt hw =>
      have hc := countP_set (fun w => w.pending) ws i ⟨todo, true⟩
        ⟨todo, false⟩ hw
      simp only [pendingCount] at ih ⊢
      simp at hc ⊢
      omega

/-- C7: in every reachable state of a batch, the completed counter never
exceeds the number of transfers that returned Success, the difference being
exactly the pending increments; once every worker has no pending increment
left (in particular after all workers have joined), the counter equals the
Success count. -/
theorem c7_counter_matches_successes (plans : List (List Bool))
    (s : CounterState)
    (h : Relation.ReflTransGen CounterStep (initCounter plans) s) :
    s.counter + pendingCount s.workers = s.succ
    ∧ s.counter ≤ s.succ
    ∧ (pendingCount s.workers = 0 → s.counter = s.succ) := by
  have hinv := counter_invariant plans s h
  refine ⟨hinv, ?_, ?_⟩
  · omega
  · intro h0; omega

/-- Witness for c7_counter_matches_successes: one worker with the single
plan Success; after its report and its increment the counter and the
success tally are both 1 and agree. -/
theorem c7_counter_matches_successes_witness :
    ((⟨[⟨[], false⟩], 1, 1⟩ : CounterState)).counter
      = ((⟨[⟨[], false⟩], 1, 1⟩ : CounterState)).succ := by
  have hs1 : CounterStep (initCounter [[true]]) ⟨[⟨[], true⟩], 1, 0⟩ :=
    CounterStep.report 0 [] [⟨[true], false⟩] 0 0 rfl
  have hs2 : CounterStep (⟨[⟨[], true⟩], 1, 0⟩ : CounterState)
      ⟨[⟨[], false⟩], 1, 1⟩ :=
    CounterStep.incr 0 [] [⟨[], true⟩] 1 0 rfl
  have hreach : Relation.ReflTransGen CounterStep (initCounter [[true]])
      ⟨[⟨[], false⟩], 1, 1⟩ :=
    Relation.ReflTransGen.tail (Relation.ReflTransGen.tail
      Relation.ReflTransGen.refl hs1) hs2
  exact (c7_counter_matches_successes [[true]] ⟨[⟨[], false⟩], 1, 1⟩
    hreach).2.2 (by decide)

theorem no_steps_without_workers (s : CounterState)
    (h : Relation.ReflTransGen CounterStep (initCounter []) s) :
    s = initCounter [] := by
  induction h with
  | refl => rfl
  | @tail b c hreach hstep ih =>
    subst ih
    have hb : initCounter [] = (⟨[], 0, 0⟩ : CounterState) := rfl
    rw [hb] at hstep
    cases hstep with
    | report i rest ws sc cnt hw => exact absurd hw (by simp)
    | incr i todo ws sc cnt hw => exact absurd hw (by simp)

/-- C5 counterexample: with an empty source list and requested concurrency
8, the batch spawns zero workers but still spawns the producer thread
(cp.rs line 109 and 174 run unconditionally), contradicting the claim that
no producer is spawned when the source list is empty. -/
theorem c5_producer_always_spawned :
    (batch_setup 8 []).producerSpawned = true
    ∧ (batch_setup 8 []).workers = 0 := by
  decide

/-- C5 amended: exactly min(c, k) worker threads are spawned, in particular
none when the source list is empty, and with no workers the completed count
stays 0 (the report is empty); but the producer thread is spawned
unconditionally, also for an empty source list. -/
theorem c5_clamped_workers (c : Nat) (sources : List String) :
    (batch_setup c sources).workers = min c sources.length
    ∧ (batch_setup c []).workers = 0
    ∧ (batch_setup c sources).producerSpawned = true
    ∧ ∀ s : CounterState,
        Relation.ReflTransGen CounterStep (initCounter []) s →
        s.counter = 0 := by
  refine ⟨?_, ?_, rfl, ?_⟩
  · simp [batch_setup, Nat.min_comm]
  · simp [batch_setup]
  · intro s h
    rw [no_steps_without_workers s h]
    rfl

/-- Witness for c5_clamped_workers at concurrency 8 and one source. -/
theorem c5_clamped_workers_witness :
    (batch_setup 8 ["a"]).workers = min 8 1
    ∧ (batch_setup 8 []).workers = 0
    ∧ (batch_setup 8 ["a"]).producerSpawned = true
    ∧ (initCounter []).counter = 0 := by
  have h := c5_clamped_workers 8 ["a"]
  exact ⟨h.1, h.2.1, h.2.2.1,
    h.2.2.2 (initCounter []) Relation.ReflTransGen.refl⟩

/-- C8 counterexample: with requested concurrency 8 and a single source the
channel is created with capacity 8 (chan::sync(max_concurrency), cp.rs line
104 and 169) while the clamped worker concurrency of the batch is 1, so the
capacity does not equal the batch concurrency. -/
theorem c8_capacity_not_clamped :
    (batch_setup 8 ["a"]).channelCapacity = 8
    ∧ (batch_setup 8 ["a"]).workers = 1
    ∧ (8 : Nat) ≠ 1 := by
  decide

/-- C8 amended: the work queue is a bounded channel whose capacity equals
the requested concurrency (the -c flag value) rather than the clamped
worker count; the clamped worker count never exceeds it. -/
theorem c8_capacity_is_requested (c : Nat) (sources : List String) :
    (batch_setup c sources).channelCapacity = c
    ∧ (batch_setup c sources).workers
        ≤ (batch_setup c sources).channelCapacity := by
  refine ⟨rfl, ?_⟩
  simp [batch_setup]

/-! ## The bounded work channel (cp.rs lines 104-127 and 169-192)

chan::sync(cap) is a single-producer, multiple-consumer bounded channel.
The producer thread sends every source path in order and then drops its
endpoint, which closes the channel (lines 109-115); each worker's for loop
over its receiver endpoint takes items until the channel is closed and
drained, then exits the loop (lines 127 and 192).  The small-step relation
below models exactly these interactions: a send blocks (has no step) while
the queue holds cap items, a receive takes the queue's head and records
which worker got it, and a worker can leave only when the channel is closed
and drained. -/

/-- State of one batch's channel interactions: what the producer still has
to send, the queue contents in order, whether the producer has dropped its
endpoint, which (worker, item) receives happened in order, and which
workers are still in their receive loop. -/
structure ChanState where
  toSend : List String
  queue : List String
  closed : Bool
  received : List (Nat × String)
  active : List Nat
deriving DecidableEq, Repr

/-- The channel steps for capacity cap: the producer enqueues the next path
when the queue is below capacity, the producer drops its endpoint after the
last path, an active worker dequeues the head, and an active worker leaves
its loop once the channel is closed and drained — the only way a worker
terminates. -/
inductive ChanStep (cap : Nat) : ChanState → ChanState → Prop
  | send (x : String) (rest q : List String) (r : List (Nat × String))
      (act : List Nat) (hq : q.length < cap) :
      ChanStep cap ⟨x :: rest, q, false, r, act⟩
        ⟨rest, q ++ [x], false, r, act⟩
  | close (q : List String) (r : List (Nat × String)) (act : List Nat) :
      ChanStep cap ⟨[], q, false, r, act⟩ ⟨[], q, true, r, act⟩
  | recv (w : Nat) (x : String) (ts q : List String) (cl : Bool)
      (r : List (Nat × String)) (act : List Nat) (hw : w ∈ act) :
      ChanStep cap ⟨ts, x :: q, cl, r, act⟩
        ⟨ts, q, cl, r ++ [(w, x)], act⟩
  | leave (w : Nat) (ts : List String) (r : List (Nat × String))
      (act : List Nat) (hw : w ∈ act) :
      ChanStep cap ⟨ts, [], true, r, act⟩ ⟨ts, [], true, r, act.erase w⟩

/-- Channel state at batch start: all sources still to send, empty open
queue, nothing received, workers 0 to nw-1 in their loops. -/
def chanInit (nw : Nat) (sources : List String) : ChanState :=
  ⟨sources, [], false, [], List.range nw⟩

theorem chan_invariant (cap nw : Nat) (sources : List String) (s : ChanState)
    (h : Relation.ReflTransGen (ChanStep cap) (chanInit nw sources) s) :
    s.received.map Prod.snd ++ s.queue ++ s.toSend = sources
    ∧ (s.closed = true → s.toSend = [])
    ∧ (s.active = [] → 0 < nw → s.closed = true ∧ s.queue = []) := by
  induction h with
  | refl =>
    refine ⟨by simp [chanInit], by simp [chanInit], ?_⟩
    intro ha hnw
    rw [chanInit] at ha
    simp only [List.range_eq_nil] at ha
    omega
  | @tail b c hreach hstep ih =>
    obtain ⟨ih1, ih2, ih3⟩ := ih
    cases hstep with
    | send x rest q r act hq =>
      refine ⟨?_, ?_, ?_⟩
      · simpa [List.append_assoc] using ih1
      · intro hc; exact Bool.noConfusion hc
      · intro ha hnw
        exact absurd (ih3 ha hnw).1 (by simp)
    | close q r act =>
      refine ⟨ih1, fun _ => rfl, ?_⟩
      intro ha hnw
      exact absurd (ih3 ha hnw).1 (by simp)
    | recv w x ts q cl r act hw =>
      refine ⟨?_, ih2, ?_⟩
      · simpa [List.append_assoc] using ih1
      · intro ha hnw
        exact absurd (ih3 ha hnw).2 (by simp)
    | leave w ts r act hw =>
      exact ⟨ih1, ih2, fun _ _ => ⟨rfl, rfl⟩⟩

/-- C9: in every reachable channel state the received items (in dequeue
order, each tagged with the single worker that dequeued it), the queue
contents and the unsent items partition the source list exactly — nothing
is duplicated, lost or re-delivered; once every worker has left (for any
positive worker count) the received items are exactly the source list and
the channel is closed; and the only step that removes a worker from its
loop requires the channel to be closed and drained, so the producer closing
the queue is the sole termination signal. -/
theorem c9_exactly_once_delivery (cap nw : Nat) (sources : List String)
    (s : ChanState)
    (h : Relation.ReflTransGen (ChanStep cap) (chanInit nw sources) s) :
    s.received.map Prod.snd ++ s.queue ++ s.toSend = sources
    ∧ (s.active = [] → 0 < nw →
        s.received.map Prod.snd = sources ∧ s.closed = true)
    ∧ (∀ t u : ChanState, ChanStep cap t u →
        u.active.length < t.active.length →
        t.closed = true ∧ t.queue = []) := by
  obtain ⟨h1, h2, h3⟩ := chan_invariant cap nw sources s h
  refine ⟨h1, ?_, ?_⟩
  · intro ha hnw
    obtain ⟨hcl, hqe⟩ := h3 ha hnw
    have hts := h2 hcl
    rw [hqe, hts] at h1
    simp only [List.append_nil] at h1
    exact ⟨h1, hcl⟩
  · intro t u hstep hlen
    cases hstep with
    | send x rest q r act hq => exact absurd hlen (lt_irrefl _)
    | close q r act => exact absurd hlen (lt_irrefl _)
    | recv w x ts q cl r act hw => exact absurd hlen (lt_irrefl _)
    | leave w ts r act hw => exact ⟨rfl, rfl⟩

/-- Witness for c9_exactly_once_delivery: capacity 1, one worker, one
source a; after send, receive, close and leave, the single worker has
received exactly the source list and the channel is closed. -/
theorem c9_exactly_once_delivery_witness :
    ((⟨[], [], true, [(0, "a")], []⟩ : ChanState)).received.map Prod.snd
      = ["a"]
    ∧ ((⟨[], [], true, [(0, "a")], []⟩ : ChanState)).closed = true := by
  have t1 : ChanStep 1 (chanInit 1 ["a"]) ⟨[], ["a"], false, [], [0]⟩ :=
    ChanStep.send "a" [] [] [] [0] (by decide)
  have t2 : ChanStep 1 (⟨[], ["a"], false, [], [0]⟩ : ChanState)
      ⟨[], [], false, [(0, "a")], [0]⟩ :=
    ChanStep.recv 0 "a" [] [] false [] [0] (by simp)
  have t3 : ChanStep 1 (⟨[], [], false, [(0, "a")], [0]⟩ : ChanState)
      ⟨[], [], true, [(0, "a")], [0]⟩ :=
    ChanStep.close [] [(0, "a")] [0]
  have t4 : ChanStep 1 (⟨[], [], true, [(0, "a")], [0]⟩ : ChanState)
      ⟨[], [], true, [(0, "a")], []⟩ :=
    ChanStep.leave 0 [] [(0, "a")] [0] (by simp)
  have hreach : Relation.ReflTransGen (ChanStep 1) (chanInit 1 ["a"])
      ⟨[], [], true, [(0, "a")], []⟩ :=
    Relation.ReflTransGen.tail (Relation.ReflTransGen.tail
      (Relation.ReflTransGen.tail (Relation.ReflTransGen.tail
        Relation.ReflTransGen.refl t1) t2) t3) t4
  exact (c9_exactly_once_delivery 1 1 ["a"] ⟨[], [], true, [(0, "a")], []⟩
    hreach).2.1 rfl Nat.one_pos

end AlgoCp
